import Mathlib

/-!
Verification of the pyxem indexation engine
(`pyxem/generators/indexation_generator.py`) against its specification.

The development shallowly embeds the three matchers:

* `ProfileIndexationGenerator.index_peaks` (fully present in the source) is
  embedded over exact rationals, with an explicit three-valued type `NpVal`
  capturing numpy's non-raising division semantics (finite / infinite / NaN),
  since the source divides by the measured magnitude without a guard.
* `IndexationGenerator.correlate` delegates per-position work to
  `correlate_library` (in `pyxem.utils.indexation_utils`, outside this tree)
  and `transfer_navigation_axes` (in `pyxem.utils.sim_utils`, outside this
  tree); those parts are modelled from the specification, as marked in their
  doc comments.
* `VectorIndexationGenerator.index_vectors` delegates to `match_vectors`
  (also outside this tree, likewise modelled from the specification), but
  then wraps the result in `VectorMatchingResults`, a name the module never
  imports or defines, so every call raises `NameError` before returning;
  the embedding models that failure explicitly.
-/

/-- A Miller-index triple `(h, k, l)`. -/
abbrev Hkl := ℤ × ℤ × ℤ

/-- The value of one numpy float computation, as needed by the deviation
formula: a finite rational, positive infinity, or NaN.  numpy does not raise
on division by zero; it produces `inf` (nonzero numerator) or `nan` (zero
numerator). -/
inductive NpVal where
  | fin (q : ℚ)
  | inf
  | nan
deriving DecidableEq, Repr, Inhabited

/-- `np.absolute` on one rational, written as an executable conditional
(proved equal to the lattice `|q|` in `npAbs_eq_abs`). -/
def npAbs (q : ℚ) : ℚ :=
  if q < 0 then -q else q

/-- `np.absolute((s - m) / m * 100)`: the relative percent deviation of a
simulated magnitude `s` from a measured magnitude `m`, with numpy's
division-by-zero semantics made explicit.  For `m ≠ 0` the value is the exact
rational `|(s - m) / m * 100|`. -/
def relDev (s m : ℚ) : NpVal :=
  if m = 0 then (if s = 0 then NpVal.nan else NpVal.inf)
  else NpVal.fin (npAbs ((s - m) / m * 100))

/-- The comparison `diff < tolerance` on a numpy value: `inf < t` and
`nan < t` are both false for every float `t`. -/
def npLt (v : NpVal) (tol : ℚ) : Bool :=
  match v with
  | NpVal.fin q => decide (q < tol)
  | NpVal.inf => false
  | NpVal.nan => false

/-- The array `diff = np.absolute((sim_mags - mags[i]) / mags[i] * 100)`
for one measured magnitude `m` (source line 166). -/
def peakDiffs (sim_mags : List ℚ) (m : ℚ) : List NpVal :=
  sim_mags.map (fun s => relDev s m)

/-- A `ProfileSimulation`: parallel arrays of simulated magnitudes and their
Miller indices, as consumed by `index_peaks` (source lines 161-162). -/
structure ProfileSimulation where
  magnitudes : List ℚ
  hkls : List Hkl
deriving DecidableEq, Repr

/-- `ProfileIndexationGenerator.index_peaks` (source lines 160-174): for each
measured magnitude `m`, compute the deviation array, keep
`sim_hkls[np.where(diff < tolerance)]` and `diff[np.where(diff < tolerance)]`,
and store the pair `(m, (hkls, diffs))`.  Fancy indexing by
`np.where(diff < tolerance)` is rendered as filtering the position-wise pairing
of `sim_hkls` with `diff`, which agrees with the source whenever the
simulation's two arrays have equal length. -/
def index_peaks (mags : List ℚ) (simulation : ProfileSimulation) (tolerance : ℚ) :
    List (ℚ × List Hkl × List NpVal) :=
  mags.map (fun m =>
    let diff := peakDiffs simulation.magnitudes m
    let hkls := ((simulation.hkls.zip diff).filter (fun p => npLt p.2 tolerance)).map Prod.fst
    let diffs := diff.filter (fun d => npLt d tolerance)
    (m, hkls, diffs))

/-- The `(hkl, deviation)` candidate pairs held by one `index_peaks` entry. -/
def entryPairs (e : ℚ × List Hkl × List NpVal) : List (Hkl × NpVal) :=
  e.2.1.zip e.2.2

/-- The ProfileMatcher selection rule exactly as the specification phrases it:
for a measured magnitude `m`, pair each library entry with its relative percent
deviation `|sim_mag - m| / m * 100` and retain exactly the entries whose
deviation is strictly less than the tolerance. -/
def spec_profile_matches (simulation : ProfileSimulation) (m tolerance : ℚ) :
    List (Hkl × ℚ) :=
  ((simulation.hkls.zip simulation.magnitudes).map
      (fun p => (p.1, |p.2 - m| / m * 100))).filter
    (fun p => decide (p.2 < tolerance))

/-- Modelled from the spec: the absolute-error fallback that the specification
asks for on a zero measured magnitude (an open question in the source; the
fallback itself exists nowhere in the code).  A library entry matches when its
absolute magnitude error `|sim_mag - m|` is below the tolerance. -/
def absFallbackMatches (simulation : ProfileSimulation) (m tolerance : ℚ) :
    List Hkl :=
  ((simulation.hkls.zip simulation.magnitudes).filter
      (fun p => decide (|p.2 - m| < tolerance))).map Prod.fst

/-- The two-entry example library of the specification:
magnitude 1.98 with hkl (1,0,0) and magnitude 3.00 with hkl (1,1,0). -/
def exampleSim : ProfileSimulation :=
  { magnitudes := [99/50, 3], hkls := [(1, 0, 0), (1, 1, 0)] }

/-- One navigation axis calibration record: scale, offset, units and name,
as carried by a hyperspy axes manager. -/
structure AxisCalibration where
  scale : ℚ
  offset : ℚ
  units : String
  axisName : String
deriving DecidableEq, Repr

/-- A signal: per-position data together with navigation axis calibration. -/
structure SignalLike (α : Type) where
  data : α
  nav_axes : List AxisCalibration
deriving DecidableEq, Repr

/-- Modelled from the spec: `transfer_navigation_axes` lives in
`pyxem.utils.sim_utils`, which is not under this tree.  Per the specification
it copies the navigation axis calibration (scale, offset, units, names) from
the source signal onto the result, unchanged and never recomputed. -/
def transfer_navigation_axes {α β : Type} (results : SignalLike α)
    (source : SignalLike β) : SignalLike α :=
  { results with nav_axes := source.nav_axes }

/-- A diffraction pattern: a flat array of intensities. -/
abbrev Pattern := List ℚ

/-- One template-matching library entry: phase index, Euler-angle orientation
`(Z, X, Z)`, and the simulated pattern. -/
structure Template where
  phase : ℕ
  eulerZ1 : ℚ
  eulerX : ℚ
  eulerZ2 : ℚ
  pattern : Pattern
deriving DecidableEq, Repr

/-- One correlation match record `(phase, Z, X, Z, score)`. -/
structure MatchRecord where
  phase : ℕ
  eulerZ1 : ℚ
  eulerX : ℚ
  eulerZ2 : ℚ
  score : ℚ
deriving DecidableEq, Repr

/-- The zero-filled placeholder record (phase 0, angles 0, score 0). -/
def zeroRecord : MatchRecord := ⟨0, 0, 0, 0, 0⟩

/-- Descending order on correlation scores. -/
def scoreGe (a b : MatchRecord) : Prop := b.score ≤ a.score

instance : DecidableRel scoreGe :=
  fun a b => inferInstanceAs (Decidable (b.score ≤ a.score))

instance : IsTotal MatchRecord scoreGe := ⟨fun a b => le_total b.score a.score⟩

instance : IsTrans MatchRecord scoreGe := ⟨fun _ _ _ h1 h2 => le_trans h2 h1⟩

/-- The scored candidate records of one measured pattern against the whole
library, for a given correlation measure. -/
def candidate_records (score : Pattern → Pattern → ℚ) (pattern : Pattern)
    (library : List Template) : List MatchRecord :=
  library.map fun t => ⟨t.phase, t.eulerZ1, t.eulerX, t.eulerZ2, score pattern t.pattern⟩

/-- Modelled from the spec: `correlate_library` lives in
`pyxem.utils.indexation_utils`, which is not under this tree.  Per the
specification: score the measured pattern against every library entry (the
correlation measure itself is a parameter of the model), sort the candidates
by descending score (stable), keep the `n_largest` best, and pad with
zero-filled records up to length `n_largest`; a masked-out position yields
`n_largest` zero-filled records without consulting the correlation measure. -/
def correlate_library (score : Pattern → Pattern → ℚ) (pattern : Pattern)
    (library : List Template) (n_largest : ℕ) (maskVal : Bool) :
    List MatchRecord :=
  if maskVal then
    let sorted := List.insertionSort scoreGe (candidate_records score pattern library)
    sorted.take n_largest ++ List.replicate (n_largest - sorted.length) zeroRecord
  else
    List.replicate n_largest zeroRecord

/-- `IndexationGenerator.correlate` (source lines 89-107): run
`correlate_library` at every navigation position (the per-position iteration
that `signal.map` performs, rendered as a list map over the flattened grid
zipped with the mask), then hand the fresh results to
`transfer_navigation_axes`. -/
def correlate (score : Pattern → Pattern → ℚ) (signal : SignalLike (List Pattern))
    (library : List Template) (n_largest : ℕ) (mask : List Bool) :
    SignalLike (List (List MatchRecord)) :=
  transfer_navigation_axes
    { data := (signal.data.zip mask).map fun pm =>
        correlate_library score pm.1 library n_largest pm.2,
      nav_axes := [] }
    signal

/-- The `mask is None` default of `IndexationGenerator.correlate` (source
lines 91-94): build `np.ones((sig_shape[0], sig_shape[1], 1))` from the
navigation shape.  Python tuple indexing is partial, so the construction is
`none` (an `IndexError`) when the navigation shape has fewer than two
entries. -/
def defaultMaskShape (navigation_shape : List ℕ) : Option (ℕ × ℕ × ℕ) := do
  let s0 ← navigation_shape.get? 0
  let s1 ← navigation_shape.get? 1
  pure (s0, s1, 1)

/-- `np.ones` of a three-component shape. -/
def onesArray (s : ℕ × ℕ × ℕ) : List (List (List ℚ)) :=
  List.replicate s.1 (List.replicate s.2.1 (List.replicate s.2.2 1))

/-- One aggregated vector-matching hypothesis (the output of spec steps 1-3):
a phase / orientation candidate together with the count of measured vectors it
explains and its accumulated residual. -/
structure VectorHyp where
  phase : ℕ
  eulerZ1 : ℚ
  eulerX : ℚ
  eulerZ2 : ℚ
  explained : ℕ
  residual : ℚ
deriving DecidableEq, Repr

/-- The specification's ranking order on hypotheses: descending explained
count, with ascending accumulated residual as tie-break. -/
def vecRank (a b : VectorHyp) : Prop :=
  b.explained < a.explained ∨ (b.explained = a.explained ∧ a.residual ≤ b.residual)

instance (a b : VectorHyp) : Decidable (vecRank a b) :=
  decidable_of_iff
    (b.explained < a.explained ∨ (b.explained = a.explained ∧ a.residual ≤ b.residual))
    Iff.rfl

instance : IsTotal VectorHyp vecRank := by
  constructor
  intro a b
  rcases Nat.lt_trichotomy b.explained a.explained with h | h | h
  · exact Or.inl (Or.inl h)
  · rcases le_total a.residual b.residual with hr | hr
    · exact Or.inl (Or.inr ⟨h, hr⟩)
    · exact Or.inr (Or.inr ⟨h.symm, hr⟩)
  · exact Or.inr (Or.inl h)

instance : IsTrans VectorHyp vecRank := by
  constructor
  intro a b c h1 h2
  rcases h1 with h1 | ⟨e1, r1⟩ <;> rcases h2 with h2 | ⟨e2, r2⟩
  · exact Or.inl (lt_trans h2 h1)
  · exact Or.inl (e2 ▸ h1)
  · exact Or.inl (e1 ▸ h2)
  · exact Or.inr ⟨e1 ▸ e2, le_trans r1 r2⟩

/-- Modelled from the spec: `match_vectors` lives in
`pyxem.utils.indexation_utils`, which is not under this tree.  The pairwise
correspondence search (spec steps 1-3) is abstracted as `hypsOf`, the map from
one position's measured vectors to the aggregated hypotheses carrying their
explained-vector counts and residuals; step 4 ranks them by descending
explained count with ascending residual tie-break and returns the top
candidates. -/
def match_vectors {V : Type} (hypsOf : V → List VectorHyp) (measured : V)
    (n_best : ℕ) : List VectorHyp :=
  (List.insertionSort vecRank (hypsOf measured)).take n_best

/-- The exception raised by a failed Python global-name lookup. -/
inductive PyError where
  | nameError (missing : String)
deriving DecidableEq, Repr

/-- The per-position results computed at source line 230: `match_vectors`
mapped over every position of the vectors signal. -/
def index_vectors_indexation {V : Type} (hypsOf : V → List VectorHyp)
    (vectors : SignalLike (List V)) (n_best : ℕ) : List (List VectorHyp) :=
  vectors.data.map fun v => match_vectors hypsOf v n_best

/-- `VectorIndexationGenerator.index_vectors` (source lines 227-244): line
230 computes the per-position indexation, but line 239 then evaluates
`VectorMatchingResults(indexation)`, a name the module neither imports nor
defines (line 27 imports only `TemplateMatchingResults`), so every call
raises `NameError` there — before `transfer_navigation_axes` (line 241) runs
and before anything is returned. -/
def index_vectors {V : Type} (hypsOf : V → List VectorHyp)
    (vectors : SignalLike (List V)) (n_best : ℕ) :
    Except PyError (SignalLike (List (List VectorHyp))) :=
  let _indexation := index_vectors_indexation hypsOf vectors n_best
  Except.error (PyError.nameError "VectorMatchingResults")

/-- Concrete inputs used by the witnesses for the orchestrated matchers. -/
def wScore : Pattern → Pattern → ℚ := fun _ _ => 1

def wSignal : SignalLike (List Pattern) :=
  { data := [[1]], nav_axes := [{ scale := 1, offset := 0, units := "nm", axisName := "x" }] }

def wLibrary : List Template :=
  [{ phase := 0, eulerZ1 := 0, eulerX := 0, eulerZ2 := 0, pattern := [1] },
   { phase := 1, eulerZ1 := 0, eulerX := 0, eulerZ2 := 0, pattern := [2] }]

def wHypsOf : Unit → List VectorHyp :=
  fun _ => [{ phase := 0, eulerZ1 := 0, eulerX := 0, eulerZ2 := 0, explained := 2, residual := 1 },
            { phase := 1, eulerZ1 := 0, eulerX := 0, eulerZ2 := 0, explained := 3, residual := 0 }]

def wVectors : SignalLike (List Unit) :=
  { data := [()], nav_axes := [{ scale := 2, offset := 1, units := "nm", axisName := "y" }] }

theorem npAbs_eq_abs (q : ℚ) : npAbs q = |q| := by
  unfold npAbs
  rcases lt_or_le q 0 with h | h
  · rw [if_pos h, abs_of_neg h]
  · rw [if_neg (not_lt.mpr h), abs_of_nonneg h]

theorem npAbs_nonneg (q : ℚ) : 0 ≤ npAbs q := by
  rw [npAbs_eq_abs]; exact abs_nonneg q

/-- For a positive measured magnitude the deviation is finite and agrees with
the specification's formula `|sim_mag - m| / m * 100`. -/
theorem relDev_of_pos (s m : ℚ) (hm : 0 < m) :
    relDev s m = NpVal.fin (|s - m| / m * 100) := by
  unfold relDev
  rw [if_neg hm.ne', npAbs_eq_abs, abs_mul, abs_div, abs_of_pos hm]
  norm_num

theorem npLt_mono {v : NpVal} {t1 t2 : ℚ} (h : t1 ≤ t2) :
    npLt v t1 = true → npLt v t2 = true := by
  cases v with
  | fin q =>
      simp only [npLt, decide_eq_true_eq]
      exact fun hq => lt_of_lt_of_le hq h
  | inf => simp [npLt]
  | nan => simp [npLt]

theorem npLt_of_nonpos_tol {tol : ℚ} (htol : tol ≤ 0) (s m : ℚ) :
    npLt (relDev s m) tol = false := by
  unfold relDev
  by_cases hm : m = 0
  · rw [if_pos hm]; split <;> rfl
  · rw [if_neg hm]
    simp only [npLt, decide_eq_false_iff_not, not_lt]
    exact le_trans htol (npAbs_nonneg _)

theorem npLt_relDev_zero (s tol : ℚ) : npLt (relDev s 0) tol = false := by
  unfold relDev
  rw [if_pos rfl]
  split <;> rfl

/-- Positional pairing of the two fancy-indexed arrays of `index_peaks`:
zipping the retained hkls with the retained deviations recovers the filter of
the zipped table, whenever the two arrays have equal length. -/
theorem zip_filter_snd {α β : Type} (p : β → Bool) :
    ∀ (a : List α) (b : List β), a.length = b.length →
      (((a.zip b).filter fun x => p x.2).map Prod.fst).zip (b.filter p)
        = (a.zip b).filter fun x => p x.2 := by
  intro a
  induction a with
  | nil => intro b h; simp
  | cons x a ih =>
      intro b h
      cases b with
      | nil => simp at h
      | cons y b =>
          simp only [List.length_cons, Nat.succ.injEq] at h
          simp only [List.zip_cons_cons, List.filter_cons]
          by_cases hp : p y = true
          · simp only [hp, if_true, List.map_cons, List.zip_cons_cons]
            rw [ih b h]
          · simp only [Bool.not_eq_true] at hp
            simp only [hp, Bool.false_eq_true, if_false]
            exact ih b h

/-- `getD` through `map`, at an index inside the list. -/
theorem getD_map_of_lt {α β : Type} (f : α → β) (l : List α) (i : Nat)
    (h : i < l.length) (d : β) (d' : α) :
    (l.map f).getD i d = f (l.getD i d') := by
  induction l generalizing i with
  | nil => simp at h
  | cons x l ih =>
      cases i with
      | zero => rfl
      | succ j =>
          simp only [List.length_cons, Nat.succ_lt_succ_iff] at h
          simpa using ih j h

/-- The hkl side of the refinement: for a positive measured magnitude, the
source's fancy-indexed hkl selection equals the hkls of the specification's
selection rule.  No length hypothesis is needed: `zip` truncates both sides
identically. -/
theorem hkls_code_eq_spec (m tol : ℚ) (hm : 0 < m) :
    ∀ (hk : List Hkl) (ms : List ℚ),
      ((hk.zip (ms.map fun s => relDev s m)).filter (fun p => npLt p.2 tol)).map Prod.fst
        = (((hk.zip ms).map fun p => (p.1, |p.2 - m| / m * 100)).filter
            (fun p => decide (p.2 < tol))).map Prod.fst := by
  intro hk
  induction hk with
  | nil => intro ms; simp
  | cons x hk ih =>
      intro ms
      cases ms with
      | nil => simp
      | cons s ms =>
          simp only [List.map_cons, List.zip_cons_cons, List.filter_cons]
          rw [relDev_of_pos s m hm]
          by_cases hq : |s - m| / m * 100 < tol
          · rw [if_pos (show npLt (NpVal.fin (|s - m| / m * 100)) tol = true by
                simp [npLt, hq]),
              if_pos (by simpa using hq), List.map_cons, List.map_cons, ih ms]
          · rw [if_neg (show ¬ npLt (NpVal.fin (|s - m| / m * 100)) tol = true by
                simp [npLt, hq]),
              if_neg (by simpa using hq)]
            exact ih ms

/-- The deviation side of the refinement: for a positive measured magnitude
and equal-length simulation arrays, the source's retained deviations equal the
(finite embeddings of the) deviations of the specification's selection rule. -/
theorem diffs_code_eq_spec (m tol : ℚ) (hm : 0 < m) :
    ∀ (ms : List ℚ) (hk : List Hkl), ms.length ≤ hk.length →
      (ms.map fun s => relDev s m).filter (fun d => npLt d tol)
        = (((hk.zip ms).map fun p => (p.1, |p.2 - m| / m * 100)).filter
            (fun p => decide (p.2 < tol))).map fun p => NpVal.fin p.2 := by
  intro ms
  induction ms with
  | nil => intro hk _; simp
  | cons s ms ih =>
      intro hk hlen
      cases hk with
      | nil => simp at hlen
      | cons x hk =>
          simp only [List.length_cons, Nat.succ_le_succ_iff] at hlen
          simp only [List.map_cons, List.zip_cons_cons, List.filter_cons]
          rw [relDev_of_pos s m hm]
          by_cases hq : |s - m| / m * 100 < tol
          · rw [if_pos (show npLt (NpVal.fin (|s - m| / m * 100)) tol = true by
                simp [npLt, hq]),
              if_pos (by simpa using hq), List.map_cons, ih hk hlen]
          · rw [if_neg (show ¬ npLt (NpVal.fin (|s - m| / m * 100)) tol = true by
                simp [npLt, hq]),
              if_neg (by simpa using hq)]
            exact ih hk hlen

theorem getD_mem_of_lt {α : Type} (l : List α) (i : ℕ) (h : i < l.length) (d : α) :
    l.getD i d ∈ l := by
  induction l generalizing i with
  | nil => simp at h
  | cons x l ih =>
      cases i with
      | zero => exact List.mem_cons_self x l
      | succ j =>
          simp only [List.length_cons, Nat.succ_lt_succ_iff] at h
          exact List.mem_cons_of_mem x (ih j h)

theorem zip_get?_eq_some {α β : Type} :
    ∀ (as : List α) (bs : List β) (i : ℕ) (a : α) (b : β),
      as.get? i = some a → bs.get? i = some b →
      (as.zip bs).get? i = some (a, b) := by
  intro as
  induction as with
  | nil => intro bs i a b h; simp at h
  | cons x as ih =>
      intro bs i a b ha hb
      cases bs with
      | nil => simp at hb
      | cons y bs =>
          cases i with
          | zero =>
              simp only [List.get?] at ha hb
              obtain rfl : x = a := Option.some.inj ha
              obtain rfl : y = b := Option.some.inj hb
              rfl
          | succ j => exact ih bs j a b ha hb

theorem sorted_replicate {α : Type} {r : α → α → Prop} (n : ℕ) (a : α)
    (h : r a a) : List.Sorted r (List.replicate n a) := by
  induction n with
  | zero => exact List.sorted_nil
  | succ k ih =>
      rw [List.replicate_succ]
      exact List.sorted_cons.mpr ⟨fun b hb => (List.eq_of_mem_replicate hb) ▸ h, ih⟩

/-- The candidate pairs of the `index_peaks` entry at position `i` are the
filter of the zipped simulation table. -/
theorem entryPairs_index_peaks (mags : List ℚ) (sim : ProfileSimulation)
    (tol : ℚ) (hlen : sim.magnitudes.length = sim.hkls.length) (i : ℕ)
    (hi : i < mags.length) :
    entryPairs ((index_peaks mags sim tol).getD i default)
      = (sim.hkls.zip (peakDiffs sim.magnitudes (mags.getD i 0))).filter
          fun p => npLt p.2 tol := by
  simp only [index_peaks]
  rw [getD_map_of_lt _ mags i hi default 0]
  exact zip_filter_snd (fun d => npLt d tol) sim.hkls
    (peakDiffs sim.magnitudes (mags.getD i 0)) (by simp [peakDiffs]; omega)

/-- C1: for every list of measured magnitudes (positive, as physical
magnitudes are), every simulation magnitude/hkl table (with its two parallel
arrays of equal length), and every tolerance, `index_peaks` pairs each
measured magnitude `m` with exactly the library entries whose relative percent
deviation `|sim_mag - m| / m * 100` is strictly below the tolerance, hkls and
deviations alike; and on the specification's example (measured 2.00, library
1.98 with hkl (1,0,0) and 3.00 with hkl (1,1,0), tolerance 2.0) only (1,0,0)
is returned, with deviation 1 percent. -/
theorem profile_index_peaks_matches_spec (mags : List ℚ)
    (sim : ProfileSimulation) (tol : ℚ)
    (hlen : sim.magnitudes.length = sim.hkls.length)
    (hpos : ∀ m ∈ mags, 0 < m) :
    index_peaks mags sim tol
      = (mags.map fun m => (m, ((spec_profile_matches sim m tol).map Prod.fst,
          (spec_profile_matches sim m tol).map fun p => NpVal.fin p.2))) ∧
    index_peaks [2] exampleSim 2 = [(2, ([(1, 0, 0)], [NpVal.fin 1]))] := by
  constructor
  · simp only [index_peaks]
    apply List.map_congr_left
    intro m hm
    have h1 := hkls_code_eq_spec m tol (hpos m hm) sim.hkls sim.magnitudes
    have h2 := diffs_code_eq_spec m tol (hpos m hm) sim.magnitudes sim.hkls
      (le_of_eq hlen)
    simp only [spec_profile_matches, peakDiffs]
    rw [Prod.mk.injEq]
    exact ⟨rfl, by rw [Prod.mk.injEq]; exact ⟨h1, h2⟩⟩
  · norm_num [index_peaks, peakDiffs, relDev, npLt, npAbs, exampleSim]

theorem profile_index_peaks_matches_spec_witness :
    index_peaks [2] exampleSim 2 = [(2, ([(1, 0, 0)], [NpVal.fin 1]))] :=
  (profile_index_peaks_matches_spec [2] exampleSim 2 rfl
    (by intro m hm; rw [List.mem_singleton.mp hm]; norm_num)).2

/-- C6: for a fixed magnitude list and simulation table (equal-length arrays)
and tolerances `tol1 < tol2`, every `(hkl, deviation)` candidate that
`index_peaks` returns at `tol1` for a given measured magnitude is also
returned at `tol2`. -/
theorem profile_tolerance_monotone (mags : List ℚ) (sim : ProfileSimulation)
    (tol1 tol2 : ℚ) (hlen : sim.magnitudes.length = sim.hkls.length)
    (ht : tol1 < tol2) (i : ℕ) (hi : i < mags.length) :
    entryPairs ((index_peaks mags sim tol1).getD i default)
      ⊆ entryPairs ((index_peaks mags sim tol2).getD i default) := by
  rw [entryPairs_index_peaks mags sim tol1 hlen i hi,
    entryPairs_index_peaks mags sim tol2 hlen i hi]
  exact (List.monotone_filter_right _
    (fun a ha => npLt_mono (le_of_lt ht) ha)).subset

theorem profile_tolerance_monotone_witness :
    entryPairs ((index_peaks [2] exampleSim 2).getD 0 default)
      ⊆ entryPairs ((index_peaks [2] exampleSim 60).getD 0 default) :=
  profile_tolerance_monotone [2] exampleSim 2 60 rfl (by norm_num) 0
    (by norm_num)

/-- C7: with a nonpositive tolerance, `index_peaks` retains no candidate at
all for any measured magnitude (in particular none with a nonzero deviation):
every deviation is either non-finite or a nonnegative absolute value, and
neither compares strictly below a nonpositive tolerance. -/
theorem profile_nonpos_tolerance_no_matches (mags : List ℚ)
    (sim : ProfileSimulation) (tol : ℚ) (htol : tol ≤ 0) (i : ℕ)
    (hi : i < mags.length) :
    ((index_peaks mags sim tol).getD i default).2 = ([], []) := by
  simp only [index_peaks]
  rw [getD_map_of_lt _ mags i hi default 0]
  rw [Prod.mk.injEq]
  constructor
  · have hnil : (sim.hkls.zip (peakDiffs sim.magnitudes (mags.getD i 0))).filter
        (fun p => npLt p.2 tol) = [] := by
      apply List.filter_eq_nil_iff.mpr
      intro p hp
      have hd : p.2 ∈ peakDiffs sim.magnitudes (mags.getD i 0) :=
        (List.of_mem_zip hp).2
      obtain ⟨s, _, hs⟩ := List.mem_map.mp hd
      rw [← hs]
      simp [npLt_of_nonpos_tol htol]
    rw [hnil]
    rfl
  · apply List.filter_eq_nil_iff.mpr
    intro d hd
    obtain ⟨s, _, rfl⟩ := List.mem_map.mp hd
    simp [npLt_of_nonpos_tol htol]

theorem profile_nonpos_tolerance_no_matches_witness :
    ((index_peaks [2] exampleSim 0).getD 0 default).2 = ([], []) :=
  profile_nonpos_tolerance_no_matches [2] exampleSim 0 le_rfl 0 (by norm_num)

/-- C8 (amended): a zero measured magnitude does not abort the run, but not
through a guard: the unguarded division produces a non-finite deviation
(`inf` for a nonzero simulated magnitude, `nan` for a zero one), every
`diff < tolerance` test on it is false, and the zero-magnitude peak is
returned with an empty candidate set — no skip and no absolute-error
fallback. -/
theorem profile_zero_magnitude_empty (mags : List ℚ) (sim : ProfileSimulation)
    (tol : ℚ) (i : ℕ) (hi : i < mags.length) (hz : mags.getD i 0 = 0) :
    (index_peaks mags sim tol).getD i default = (0, ([], [])) := by
  simp only [index_peaks]
  rw [getD_map_of_lt _ mags i hi default 0, hz]
  rw [Prod.mk.injEq]
  refine ⟨rfl, ?_⟩
  rw [Prod.mk.injEq]
  constructor
  · have hnil : (sim.hkls.zip (peakDiffs sim.magnitudes 0)).filter
        (fun p => npLt p.2 tol) = [] := by
      apply List.filter_eq_nil_iff.mpr
      intro p hp
      have hd : p.2 ∈ peakDiffs sim.magnitudes 0 := (List.of_mem_zip hp).2
      obtain ⟨s, _, hs⟩ := List.mem_map.mp hd
      rw [← hs]
      simp [npLt_relDev_zero]
    rw [hnil]
    rfl
  · apply List.filter_eq_nil_iff.mpr
    intro d hd
    obtain ⟨s, _, rfl⟩ := List.mem_map.mp hd
    simp [npLt_relDev_zero]

theorem profile_zero_magnitude_empty_witness :
    (index_peaks [0] exampleSim 2).getD 0 default = (0, ([], [])) :=
  profile_zero_magnitude_empty [0] exampleSim 2 0 (by norm_num) rfl

/-- C8 (counterexample to the claim as stated): on measured magnitude 0,
library magnitude 1 with hkl (1,0,0) and tolerance 2, the division is not
guarded — the non-finite value `inf` is propagated into the deviation array —
the peak is not skipped (its entry is present, with an empty candidate set),
and the absolute-error fallback would have matched (1,0,0) while the code
matches nothing. -/
theorem profile_zero_magnitude_counterexample :
    peakDiffs [1] 0 = [NpVal.inf] ∧
    index_peaks [0] { magnitudes := [1], hkls := [(1, 0, 0)] } 2
      = [(0, ([], []))] ∧
    absFallbackMatches { magnitudes := [1], hkls := [(1, 0, 0)] } 0 2
      = [(1, 0, 0)] := by
  refine ⟨?_, ?_, ?_⟩ <;>
    norm_num [peakDiffs, relDev, npLt, index_peaks, absFallbackMatches]

/-- C10: `index_peaks` returns one entry per measured magnitude, in input
order; the entry at position `i` carries the `i`-th measured magnitude, and
its qualifying candidates form a sublist of the simulation table (paired with
its deviations), hence appear in the table's order. -/
theorem profile_output_shape_and_order (mags : List ℚ)
    (sim : ProfileSimulation) (tol : ℚ)
    (hlen : sim.magnitudes.length = sim.hkls.length) (i : ℕ)
    (hi : i < mags.length) :
    (index_peaks mags sim tol).length = mags.length ∧
    ((index_peaks mags sim tol).getD i default).1 = mags.getD i 0 ∧
    List.Sublist (entryPairs ((index_peaks mags sim tol).getD i default))
      (sim.hkls.zip (peakDiffs sim.magnitudes (mags.getD i 0))) := by
  refine ⟨by simp [index_peaks], ?_, ?_⟩
  · simp only [index_peaks]
    rw [getD_map_of_lt _ mags i hi default 0]
  · rw [entryPairs_index_peaks mags sim tol hlen i hi]
    exact List.filter_sublist _

theorem profile_output_shape_and_order_witness :
    (index_peaks [2] exampleSim 2).length = 1 ∧
    ((index_peaks [2] exampleSim 2).getD 0 default).1 = 2 ∧
    List.Sublist (entryPairs ((index_peaks [2] exampleSim 2).getD 0 default))
      (exampleSim.hkls.zip (peakDiffs exampleSim.magnitudes 2)) :=
  profile_output_shape_and_order [2] exampleSim 2 rfl 0 (by norm_num)

theorem candidate_records_score_nonneg (score : Pattern → Pattern → ℚ)
    (pattern : Pattern) (library : List Template)
    (hscore : ∀ t ∈ library, 0 ≤ score pattern t.pattern) :
    ∀ r ∈ candidate_records score pattern library, 0 ≤ r.score := by
  intro r hr
  obtain ⟨t, ht, rfl⟩ := List.mem_map.mp hr
  exact hscore t ht

/-- Shape of one `correlate_library` result: length exactly `n_largest`,
sorted by descending score, and every record is either a real scored
candidate or the zero placeholder. -/
theorem correlate_library_shape (score : Pattern → Pattern → ℚ)
    (pattern : Pattern) (library : List Template) (K : ℕ) (mv : Bool)
    (hscore : ∀ t ∈ library, 0 ≤ score pattern t.pattern) :
    (correlate_library score pattern library K mv).length = K ∧
    List.Sorted scoreGe (correlate_library score pattern library K mv) ∧
    ∀ r ∈ correlate_library score pattern library K mv,
      r ∈ candidate_records score pattern library ∨ r = zeroRecord := by
  have hnn := candidate_records_score_nonneg score pattern library hscore
  cases mv with
  | false =>
      refine ⟨List.length_replicate _ _, ?_, ?_⟩
      · exact sorted_replicate K zeroRecord le_rfl
      · intro r hr
        exact Or.inr (List.eq_of_mem_replicate hr)
  | true =>
      simp only [correlate_library, if_true]
      set S := List.insertionSort scoreGe (candidate_records score pattern library)
        with hS
      have hmemS : ∀ r ∈ S, r ∈ candidate_records score pattern library := by
        intro r hr
        exact (List.perm_insertionSort scoreGe _).mem_iff.mp hr
      refine ⟨?_, ?_, ?_⟩
      · rw [List.length_append, List.length_take, List.length_replicate]
        have : S.length = (candidate_records score pattern library).length :=
          List.length_insertionSort _ _
        omega
      · apply List.pairwise_append.mpr
        refine ⟨?_, ?_, ?_⟩
        · exact List.Pairwise.sublist (List.take_sublist K S)
            (List.sorted_insertionSort scoreGe _)
        · exact sorted_replicate _ zeroRecord le_rfl
        · intro a ha b hb
          have haS : a ∈ S := List.mem_of_mem_take ha
          have h0 : 0 ≤ a.score := hnn a (hmemS a haS)
          rw [List.eq_of_mem_replicate hb]
          exact h0
      · intro r hr
        rcases List.mem_append.mp hr with h | h
        · exact Or.inl (hmemS r (List.mem_of_mem_take h))
        · exact Or.inr (List.eq_of_mem_replicate h)

/-- C3: every per-position entry produced by `correlate` has length exactly
`n_largest` (padded with zero placeholders when fewer real candidates exist)
and is sorted by descending correlation score; in particular no entry is
longer than `n_largest`. -/
theorem template_results_length_and_sorted (score : Pattern → Pattern → ℚ)
    (signal : SignalLike (List Pattern)) (library : List Template) (K : ℕ)
    (mask : List Bool)
    (hscore : ∀ p ∈ signal.data, ∀ t ∈ library, 0 ≤ score p t.pattern) :
    ∀ entry ∈ (correlate score signal library K mask).data,
      entry.length = K ∧ List.Sorted scoreGe entry ∧
      ∀ r ∈ entry,
        (∃ p ∈ signal.data, r ∈ candidate_records score p library) ∨
        r = zeroRecord := by
  intro entry he
  simp only [correlate, transfer_navigation_axes] at he
  obtain ⟨pm, hpm, rfl⟩ := List.mem_map.mp he
  have hp : pm.1 ∈ signal.data := (List.of_mem_zip hpm).1
  obtain ⟨h1, h2, h3⟩ :=
    correlate_library_shape score pm.1 library K pm.2 (hscore pm.1 hp)
  exact ⟨h1, h2, fun r hr => (h3 r hr).imp (fun h => ⟨pm.1, hp, h⟩) id⟩

theorem template_results_length_and_sorted_witness :
    ((correlate wScore wSignal wLibrary 2 [true]).data.getD 0 []).length = 2 ∧
    List.Sorted scoreGe
      ((correlate wScore wSignal wLibrary 2 [true]).data.getD 0 []) := by
  have hlen : 0 < (correlate wScore wSignal wLibrary 2 [true]).data.length := by
    simp [correlate, transfer_navigation_axes, wSignal]
  have hmem := getD_mem_of_lt (correlate wScore wSignal wLibrary 2 [true]).data
    0 hlen []
  have h := template_results_length_and_sorted wScore wSignal wLibrary 2 [true]
    (by intro p hp t ht; simp [wScore]) _ hmem
  exact ⟨h.1, h.2.1⟩

/-- C4: at a position whose mask entry is false, `correlate` yields the
placeholder of `n_largest` zero-filled records, for every correlation
measure whatsoever — the scoring is never consulted there. -/
theorem template_mask_placeholder (score : Pattern → Pattern → ℚ)
    (signal : SignalLike (List Pattern)) (library : List Template) (K : ℕ)
    (mask : List Bool) (i : ℕ) (p : Pattern)
    (hp : signal.data.get? i = some p) (hm : mask.get? i = some false) :
    (correlate score signal library K mask).data.get? i
      = some (List.replicate K zeroRecord) := by
  simp only [correlate, transfer_navigation_axes]
  rw [List.get?_map, zip_get?_eq_some signal.data mask i p false hp hm]
  rfl

theorem template_mask_placeholder_witness :
    (correlate wScore wSignal wLibrary 2 [false]).data.get? 0
      = some (List.replicate 2 zeroRecord) :=
  template_mask_placeholder wScore wSignal wLibrary 2 [false] 0 [1] rfl rfl

/-- C5: `correlate` returns results whose navigation axis calibration is the
input signal's, copied unchanged by `transfer_navigation_axes`.  The claim's
other half fails in the source as given: `index_vectors` raises `NameError`
at line 239, before `transfer_navigation_axes` (line 241) runs, and so never
returns calibrated results at all. -/
theorem navigation_axes_transferred {V : Type} (score : Pattern → Pattern → ℚ)
    (signal : SignalLike (List Pattern)) (library : List Template) (K : ℕ)
    (mask : List Bool) (hypsOf : V → List VectorHyp)
    (vectors : SignalLike (List V)) (n_best : ℕ) :
    (correlate score signal library K mask).nav_axes = signal.nav_axes ∧
    index_vectors hypsOf vectors n_best
      = Except.error (PyError.nameError "VectorMatchingResults") :=
  ⟨rfl, rfl⟩

/-- C2: in the source as given, `index_vectors` never returns ranked
results: every call raises `NameError` at line 239, `VectorMatchingResults`
being unresolvable in the module.  The per-position indexation computed at
line 230 — which the raise then discards — is exactly what the claim
describes: `match_vectors` of the position's measured data, sorted by
descending explained-vector count with ascending residual tie-break, at most
`n_best` records, each one of the position's aggregated hypotheses carrying
its explained count and residual. -/
theorem index_vectors_never_returns {V : Type} (hypsOf : V → List VectorHyp)
    (vectors : SignalLike (List V)) (n_best : ℕ) (i : ℕ) (v : V)
    (hv : vectors.data.get? i = some v) :
    index_vectors hypsOf vectors n_best
      = Except.error (PyError.nameError "VectorMatchingResults") ∧
    (index_vectors_indexation hypsOf vectors n_best).get? i
      = some (match_vectors hypsOf v n_best) ∧
    List.Sorted vecRank (match_vectors hypsOf v n_best) ∧
    (match_vectors hypsOf v n_best).length ≤ n_best ∧
    ∀ r ∈ match_vectors hypsOf v n_best, r ∈ hypsOf v := by
  refine ⟨rfl, ?_, ?_, ?_, ?_⟩
  · simp only [index_vectors_indexation]
    rw [List.get?_map, hv]
    rfl
  · exact List.Pairwise.sublist (List.take_sublist n_best _)
      (List.sorted_insertionSort vecRank (hypsOf v))
  · simp only [match_vectors]
    rw [List.length_take]
    exact min_le_left _ _
  · intro r hr
    have hr' : r ∈ List.insertionSort vecRank (hypsOf v) :=
      List.mem_of_mem_take hr
    exact (List.perm_insertionSort vecRank (hypsOf v)).mem_iff.mp hr'

theorem index_vectors_never_returns_witness :
    index_vectors wHypsOf wVectors 1
      = Except.error (PyError.nameError "VectorMatchingResults") ∧
    (index_vectors_indexation wHypsOf wVectors 1).get? 0
      = some (match_vectors wHypsOf () 1) ∧
    List.Sorted vecRank (match_vectors wHypsOf () 1) ∧
    (match_vectors wHypsOf () 1).length ≤ 1 := by
  have h := index_vectors_never_returns wHypsOf wVectors 1 0 () rfl
  exact ⟨h.1, h.2.1, h.2.2.1, h.2.2.2.1⟩

/-- C9: the `mask is None` default indexes the first two components of the
navigation shape, so it exists exactly when the navigation grid has at least
two dimensions, and it is then the all-ones (everywhere truthy) array of
shape `(nav0, nav1, 1)` — matching is enabled at every position. -/
theorem default_mask_requires_two_axes (s : List ℕ) :
    ((defaultMaskShape s).isSome = true ↔ 2 ≤ s.length) ∧
    (∀ s0 s1 rest, s = s0 :: s1 :: rest →
      defaultMaskShape s = some (s0, s1, 1) ∧
      ∀ plane ∈ onesArray (s0, s1, 1), ∀ row ∈ plane, ∀ q ∈ row, q = 1) := by
  constructor
  · match s with
    | [] => simp [defaultMaskShape]
    | [s0] => simp [defaultMaskShape]
    | s0 :: s1 :: rest =>
        refine ⟨fun _ => ?_, fun _ => rfl⟩
        simp only [List.length_cons]
        omega
  · rintro s0 s1 rest rfl
    refine ⟨rfl, ?_⟩
    intro plane hp row hr q hq
    rw [List.eq_of_mem_replicate hp] at hr
    rw [List.eq_of_mem_replicate hr] at hq
    exact List.eq_of_mem_replicate hq

theorem default_mask_requires_two_axes_witness :
    (defaultMaskShape [3, 4]).isSome = true ∧
    defaultMaskShape [3, 4] = some (3, 4, 1) ∧
    (defaultMaskShape [5]).isSome = false := by
  have h1 := default_mask_requires_two_axes [3, 4]
  have h2 := default_mask_requires_two_axes [5]
  refine ⟨h1.1.mpr (by norm_num), (h1.2 3 4 [] rfl).1, ?_⟩
  by_contra hc
  simp only [Bool.not_eq_false] at hc
  exact absurd (h2.1.mp hc) (by simp)
